import Mathlib

/-!
Verification of the elastic-scaling drawer component
(`src/shell/app/modules/runtime/pages/overview/components/elastic-scaling.tsx`).

The component configures a reactive form.  We embed the pieces of genuine
logic shallowly:

* the `onFieldReact('triggers.*.type')` effect that synchronises the
  display state and default values of a trigger's metadata fields;
* the `onFieldValueChange` normalisation of numeric fields to strings;
* the type-option filter of `TriggersConfig` and the add/edit/cancel modal
  protocol on the triggers array;
* the field validators and the `onSubmit` handler that validates, filters
  untyped triggers and dispatches a create or update call.

Form-engine state is modelled explicitly: a field is a display mode plus a
stored value, and the effects are functions on that state.  Calling
`setDisplay` changes only the display mode of a field; values are only
changed by explicit `setValue` calls, mirroring the statements the handlers
actually perform.
-/

namespace ElasticScaling

/-- Display mode of a formily field: `visible`, `hidden` (present in the
submitted value but not shown) or `none` (not shown, `display: none`). -/
inductive Display where
  | visible
  | hidden
  | none
deriving DecidableEq, Repr

/-- A single form field as the effect handlers see it: its display mode and
its stored value (strings; numeric values are held in their string form, see
the normalisation effect). -/
structure FieldState where
  display : Display
  val : String
deriving DecidableEq, Repr

/-- The six metadata fields of one trigger row that the
`onFieldReact('triggers.*.type')` handler queries under
`metadata.layout.grid`: `value`, `start`, `end`, `desiredReplicas`, the
internal subtype marker `type` and `timezone`. -/
structure TriggerFieldsState where
  value : FieldState
  start : FieldState
  end_ : FieldState
  desiredReplicas : FieldState
  subType : FieldState
  timezone : FieldState
deriving DecidableEq, Repr

/-- The `onFieldReact('triggers.*.type')` effect (elastic-scaling.tsx lines
302-335): given the new value of a trigger's `type` field, update the
display state of the six sibling metadata fields.  The three branches of
the source are `!value`, `value !== 'cron'` and the `else` (cron) branch. -/
def typeReactEffect (tv : String) (s : TriggerFieldsState) : TriggerFieldsState :=
  if tv = "" then
    { s with
      value := { s.value with display := .none }
      start := { s.start with display := .none }
      end_ := { s.end_ with display := .none }
      desiredReplicas := { s.desiredReplicas with display := .none } }
  else if tv ≠ "cron" then
    { s with
      value := { s.value with display := .visible }
      start := { s.start with display := .none }
      end_ := { s.end_ with display := .none }
      desiredReplicas := { s.desiredReplicas with display := .none }
      subType := { display := .hidden, val := "Utilization" }
      timezone := { s.timezone with display := .none } }
  else
    { s with
      value := { s.value with display := .none }
      start := { s.start with display := .visible }
      end_ := { s.end_ with display := .visible }
      desiredReplicas := { s.desiredReplicas with display := .visible }
      subType := { s.subType with display := .none }
      timezone := { display := .hidden, val := "Asia/Shanghai" } }

example (s : TriggerFieldsState) : (typeReactEffect "cpu" s).value.display = .visible := by
  simp [typeReactEffect]

/-- C1: when a trigger's `type` changes to `cpu` or `memory`, the `value`
field becomes visible, `start`/`end`/`desiredReplicas` get display `none`,
the internal subtype marker gets display `hidden` and value `Utilization`,
and `timezone` gets display `none`; when it changes to `cron`, `value` gets
display `none`, `start`/`end`/`desiredReplicas` become visible, the subtype
marker gets display `none`, and `timezone` gets display `hidden` and value
`Asia/Shanghai`. -/
theorem type_change_sets_field_visibility (s : TriggerFieldsState) :
    ((typeReactEffect "cpu" s).value.display = .visible ∧
      (typeReactEffect "cpu" s).start.display = .none ∧
      (typeReactEffect "cpu" s).end_.display = .none ∧
      (typeReactEffect "cpu" s).desiredReplicas.display = .none ∧
      (typeReactEffect "cpu" s).subType.display = .hidden ∧
      (typeReactEffect "cpu" s).subType.val = "Utilization" ∧
      (typeReactEffect "cpu" s).timezone.display = .none) ∧
    ((typeReactEffect "memory" s).value.display = .visible ∧
      (typeReactEffect "memory" s).start.display = .none ∧
      (typeReactEffect "memory" s).end_.display = .none ∧
      (typeReactEffect "memory" s).desiredReplicas.display = .none ∧
      (typeReactEffect "memory" s).subType.display = .hidden ∧
      (typeReactEffect "memory" s).subType.val = "Utilization" ∧
      (typeReactEffect "memory" s).timezone.display = .none) ∧
    ((typeReactEffect "cron" s).value.display = .none ∧
      (typeReactEffect "cron" s).start.display = .visible ∧
      (typeReactEffect "cron" s).end_.display = .visible ∧
      (typeReactEffect "cron" s).desiredReplicas.display = .visible ∧
      (typeReactEffect "cron" s).subType.display = .none ∧
      (typeReactEffect "cron" s).timezone.display = .hidden ∧
      (typeReactEffect "cron" s).timezone.val = "Asia/Shanghai") := by
  refine ⟨⟨?_, ?_, ?_, ?_, ?_, ?_, ?_⟩, ⟨?_, ?_, ?_, ?_, ?_, ?_, ?_⟩,
    ⟨?_, ?_, ?_, ?_, ?_, ?_, ?_⟩⟩ <;> simp [typeReactEffect]

/-- C2: when a trigger's `type` changes to the empty value, exactly the four
fields `value`, `start`, `end` and `desiredReplicas` get display `none`
(the other two displays are untouched), and no stored field value is
changed. -/
theorem type_unset_hides_without_clearing (s : TriggerFieldsState) :
    (typeReactEffect "" s).value.display = .none ∧
    (typeReactEffect "" s).start.display = .none ∧
    (typeReactEffect "" s).end_.display = .none ∧
    (typeReactEffect "" s).desiredReplicas.display = .none ∧
    (typeReactEffect "" s).subType.display = s.subType.display ∧
    (typeReactEffect "" s).timezone.display = s.timezone.display ∧
    (typeReactEffect "" s).value.val = s.value.val ∧
    (typeReactEffect "" s).start.val = s.start.val ∧
    (typeReactEffect "" s).end_.val = s.end_.val ∧
    (typeReactEffect "" s).desiredReplicas.val = s.desiredReplicas.val ∧
    (typeReactEffect "" s).subType.val = s.subType.val ∧
    (typeReactEffect "" s).timezone.val = s.timezone.val := by
  refine ⟨?_, ?_, ?_, ?_, ?_, ?_, ?_, ?_, ?_, ?_, ?_, ?_⟩ <;> simp [typeReactEffect]

/-! ## Trigger list, type options and the add/edit protocol -/

/-- One entry of the `triggers` array value; only its `type` matters for the
option filter and the exclusivity invariant. -/
structure Trigger where
  type : String
deriving DecidableEq, Repr

/-- The values of `typeOptions` (elastic-scaling.tsx lines 47-51). -/
def typeOptionValues : List String := ["cpu", "memory", "cron"]

/-- `currentTypes` (lines 140-145): the reduce that collects the truthy
(non-empty) `type` of every trigger in the array value, in order. -/
def currentTypes (v : List Trigger) : List String :=
  v.foldl (fun acc t => if t.type ≠ "" then acc ++ [t.type] else acc) []

/-- The option filter pushed onto trigger `i`'s `type` field while the modal
is open (lines 147-158): keep an option when its value is not among
`currentTypes`, or when it is the value trigger `i` currently holds. -/
def optionsFor (v : List Trigger) (i : Nat) : List String :=
  typeOptionValues.filter fun o =>
    !(currentTypes v).contains o || (v[i]?.elim false fun t => t.type == o)

theorem mem_foldl_pushTypes (v : List Trigger) (acc : List String) (o : String) :
    o ∈ v.foldl (fun acc t => if t.type ≠ "" then acc ++ [t.type] else acc) acc ↔
      o ∈ acc ∨ ∃ t ∈ v, t.type = o ∧ t.type ≠ "" := by
  induction v generalizing acc with
  | nil => simp
  | cons hd tl ih =>
    by_cases h : hd.type = "" <;>
      simp only [List.foldl_cons, h, if_pos, if_neg, ite_not, List.mem_cons, ih,
        List.mem_append, List.mem_singleton] <;> simp [h] <;> aesop

theorem mem_currentTypes (v : List Trigger) (o : String) :
    o ∈ currentTypes v ↔ ∃ t ∈ v, t.type = o ∧ t.type ≠ "" := by
  have h := mem_foldl_pushTypes v [] o
  simp only [List.not_mem_nil, false_or] at h
  exact h

/-- C3: the set of `type` options offered to trigger `i` is exactly the
options not held by any trigger in the list, plus the one trigger `i`
itself holds; in particular a third trigger added after a `cpu` and a
`memory` trigger is offered exactly `cron`. -/
theorem type_options_exclusivity :
    (∀ (v : List Trigger) (i : Nat) (o : String),
        o ∈ optionsFor v i ↔
          o ∈ typeOptionValues ∧
            ((∀ t ∈ v, t.type ≠ o) ∨ ∃ t, v[i]? = some t ∧ t.type = o)) ∧
    optionsFor [⟨"cpu"⟩, ⟨"memory"⟩, ⟨""⟩] 2 = ["cron"] := by
  constructor
  · intro v i o
    have hne : o ∈ typeOptionValues → o ≠ "" := by
      intro h
      fin_cases h <;> decide
    simp only [optionsFor, List.mem_filter, Bool.or_eq_true, Bool.not_eq_true',
      and_congr_right_iff]
    intro ho
    constructor
    · rintro (hc | he)
      · left
        intro t ht hto
        have : o ∈ currentTypes v := (mem_currentTypes v o).2 ⟨t, ht, hto, hto ▸ hne ho⟩
        rw [← List.elem_iff] at this
        simp [List.contains] at hc
        exact absurd this (by simp [hc])
      · right
        cases hv : v[i]? with
        | none => simp [hv, Option.elim] at he
        | some t =>
          refine ⟨t, rfl, ?_⟩
          simpa [hv, Option.elim] using he
    · rintro (hall | ⟨t, hv, hto⟩)
      · left
        have : o ∉ currentTypes v := by
          rw [mem_currentTypes]
          rintro ⟨t, ht, hto, -⟩
          exact hall t ht hto
        rw [← List.elem_iff] at this
        simpa [List.contains] using this
      · right
        simp [hv, Option.elim, hto]
  · decide

/-- Closed instance of the C3 theorem at the concrete list of the claim. -/
theorem type_options_exclusivity_witness :
    "cron" ∈ optionsFor [⟨"cpu"⟩, ⟨"memory"⟩, ⟨""⟩] 2 := by
  exact (type_options_exclusivity.1 [⟨"cpu"⟩, ⟨"memory"⟩, ⟨""⟩] 2 "cron").2
    ⟨by decide, Or.inl (by decide)⟩

/-- One user-visible transition on the triggers array value under the
add/edit protocol: `add` appends an empty trigger via `field.push({})` and
is guarded by `btnDisabled` (line 225: disabled exactly when `currentTypes`
has length 3); `setType` records trigger `i`'s `type` select taking one of
the options the exclusivity filter offers it; `remove` is the delete action
(`field.remove(index)`), which also covers cancelling an add. -/
inductive Step : List Trigger → List Trigger → Prop where
  | add (v : List Trigger) :
      (currentTypes v).length ≠ 3 → Step v (v ++ [⟨""⟩])
  | setType (v : List Trigger) (i : Nat) (o : String) :
      o ∈ optionsFor v i → Step v (v.set i ⟨o⟩)
  | remove (v : List Trigger) (i : Nat) : Step v (v.eraseIdx i)

/-- Trigger array values reachable from the initial empty array through the
add/edit protocol. -/
inductive Reachable : List Trigger → Prop where
  | init : Reachable []
  | step {v w : List Trigger} : Reachable v → Step v w → Reachable w

/-- Every non-empty type in the list is one of the three offered options. -/
def TypedValid (v : List Trigger) : Prop :=
  ∀ t ∈ v, t.type = "" ∨ t.type ∈ typeOptionValues

/-- No non-empty type occurs on two triggers. -/
def AtMostOnePerType (v : List Trigger) : Prop :=
  ∀ o : String, o ≠ "" → v.countP (fun t => t.type == o) ≤ 1

theorem countP_set_add (l : List Trigger) (i : Nat) (a : Trigger)
    (p : Trigger → Bool) (h : i < l.length) :
    (l.set i a).countP p + (if p l[i] then 1 else 0) =
      l.countP p + (if p a then 1 else 0) := by
  induction l generalizing i with
  | nil => simp at h
  | cons hd tl ih =>
    cases i with
    | zero =>
      simp only [List.set_cons_zero, List.countP_cons, List.getElem_cons_zero]
      omega
    | succ n =>
      have hn : n < tl.length := by simpa using h
      have key := ih n hn
      simp only [List.set_cons_succ, List.countP_cons, List.getElem_cons_succ]
      omega

theorem step_preserves {v w : List Trigger} (hs : Step v w)
    (h1 : TypedValid v) (h2 : AtMostOnePerType v) :
    TypedValid w ∧ AtMostOnePerType w := by
  cases hs with
  | add hlen =>
    constructor
    · intro t ht
      rcases List.mem_append.1 ht with h | h
      · exact h1 t h
      · left
        simp only [List.mem_singleton] at h
        rw [h]
    · intro o ho
      rw [List.countP_append]
      have hz : List.countP (fun t => t.type == o) [(⟨""⟩ : Trigger)] = 0 := by
        simp [List.countP_cons, Ne.symm ho]
      rw [hz]
      simpa using h2 o ho
  | setType i o hopt =>
    rcases (type_options_exclusivity.1 v i o).1 hopt with ⟨hoMem, hcase⟩
    by_cases hi : i < v.length
    · constructor
      · intro t ht
        rcases List.mem_or_eq_of_mem_set ht with h | h
        · exact h1 t h
        · right
          rw [h]
          exact hoMem
      · intro s hs
        have key := countP_set_add v i ⟨o⟩ (fun t => t.type == s) hi
        have hv := h2 s hs
        by_cases hso : s = o
        · subst hso
          rcases hcase with hall | ⟨t, hget, hto⟩
          · have hz : v.countP (fun t => t.type == s) = 0 :=
              List.countP_eq_zero.2 fun t ht => by
                simpa using hall t ht
            rw [hz] at key
            have hone : (if (Trigger.mk s).type == s then 1 else 0) = 1 := by simp
            rw [hone] at key
            omega
          · have hget' : v[i]? = some v[i] := List.getElem?_eq_getElem hi
            rw [hget'] at hget
            have ht : v[i].type = s := by
              cases hget
              exact hto
            have hif : (if v[i].type == s then 1 else 0) = 1 := by simp [ht]
            have hif2 : (if (Trigger.mk s).type == s then 1 else 0) = 1 := by simp
            rw [hif, hif2] at key
            omega
        · have hif2 : (if (Trigger.mk o).type == s then 1 else 0) = 0 := by
            simp [Ne.symm hso]
          rw [hif2] at key
          omega
    · push_neg at hi
      rw [List.set_eq_of_length_le hi]
      exact ⟨h1, h2⟩
  | remove i =>
    have hsub := List.eraseIdx_sublist v i
    constructor
    · intro t ht
      exact h1 t (hsub.mem ht)
    · intro o ho
      exact le_trans (hsub.countP_le _) (h2 o ho)

theorem reachable_inv {v : List Trigger} (h : Reachable v) :
    TypedValid v ∧ AtMostOnePerType v := by
  induction h with
  | init => exact ⟨by intro t ht; simp at ht, by intro o ho; simp⟩
  | step _ hs ih => exact step_preserves hs ih.1 ih.2

theorem countP_typed_le (v : List Trigger) (h : TypedValid v) :
    v.countP (fun t => !(t.type == "")) ≤
      v.countP (fun t => t.type == "cpu") + v.countP (fun t => t.type == "memory") +
        v.countP (fun t => t.type == "cron") := by
  induction v with
  | nil => simp
  | cons hd tl ih =>
    have hhd := h hd (List.mem_cons_self hd tl)
    have htl : TypedValid tl := fun t ht => h t (List.mem_cons_of_mem _ ht)
    have hih := ih htl
    simp only [List.countP_cons]
    rcases hhd with h0 | hmem
    · simp only [h0]
      simp
      omega
    · simp only [typeOptionValues, List.mem_cons, List.mem_singleton,
        List.not_mem_nil, or_false] at hmem
      rcases hmem with h | h | h <;> simp [h] <;> omega

/-- C4: in every triggers array value reachable through the add/edit
protocol, each non-empty type occurs on at most one trigger, and hence at
most three triggers carry a type. -/
theorem reachable_at_most_one_per_type {v : List Trigger} (h : Reachable v) :
    (∀ o : String, o ≠ "" → v.countP (fun t => t.type == o) ≤ 1) ∧
      (v.filter (fun t => !(t.type == ""))).length ≤ 3 := by
  obtain ⟨h1, h2⟩ := reachable_inv h
  refine ⟨h2, ?_⟩
  rw [← List.countP_eq_length_filter]
  have hle := countP_typed_le v h1
  have c1 := h2 "cpu" (by decide)
  have c2 := h2 "memory" (by decide)
  have c3 := h2 "cron" (by decide)
  omega

/-- Closed instance of the C4 theorem: the list holding a single `cpu`
trigger is reached by one add and one type selection, and satisfies the
invariant. -/
theorem reachable_at_most_one_per_type_witness :
    (∀ o : String, o ≠ "" →
        ([⟨"cpu"⟩] : List Trigger).countP (fun t => t.type == o) ≤ 1) ∧
      (([⟨"cpu"⟩] : List Trigger).filter (fun t => !(t.type == ""))).length ≤ 3 := by
  apply reachable_at_most_one_per_type
  have h0 : Reachable [(⟨""⟩ : Trigger)] := by
    have := Reachable.step Reachable.init (Step.add [] (by decide))
    simpa using this
  have h1 : Step [(⟨""⟩ : Trigger)] ([(⟨""⟩ : Trigger)].set 0 ⟨"cpu"⟩) :=
    Step.setType [⟨""⟩] 0 "cpu" (by decide)
  have h2 : ([(⟨""⟩ : Trigger)].set 0 ⟨"cpu"⟩) = [(⟨"cpu"⟩ : Trigger)] := rfl
  rw [h2] at h1
  exact Reachable.step h0 h1

/-! ## Numeric-field normalisation -/

/-- A JavaScript form-field value as the `onFieldValueChange` handlers see
it: a number (machine numbers modelled as integers), a string, or
undefined. -/
inductive JSValue where
  | num (n : Int)
  | str (s : String)
  | undef
deriving DecidableEq, Repr

/-- lodash `isNumber` restricted to the values above. -/
def isNumberJS : JSValue → Bool
  | .num _ => true
  | _ => false

/-- Template-literal stringification of a value, as used in
`\x7b$\x7bfield.value\x7d\x7d` on numeric values. -/
def templateString : JSValue → String
  | .num n => toString n
  | .str s => s
  | .undef => "undefined"

/-- The `onFieldValueChange('triggers.*.*.value')` and
`onFieldValueChange('triggers.*.*.desiredReplicas')` handlers (lines
336-343): store the stringified value when the new value is a number,
otherwise store the value unchanged. -/
def numericFieldChange (v : JSValue) : JSValue :=
  if isNumberJS v then .str (templateString v) else v

/-- C5: a numeric new value of a `value` or `desiredReplicas` field is
stored as its decimal string representation, and a non-numeric value is
stored unchanged; in particular the number 85 is stored as the string
"85". -/
theorem numeric_change_stored_as_string :
    (∀ n : Int, numericFieldChange (.num n) = .str (toString n)) ∧
    (∀ s : String, numericFieldChange (.str s) = .str s) ∧
    numericFieldChange .undef = .undef ∧
    numericFieldChange (.num 85) = .str "85" :=
  ⟨fun _ => rfl, fun _ => rfl, rfl, rfl⟩

/-! ## The trigger modal add/edit/cancel protocol and the submit path -/

/-- The full value of one entry of the `triggers` array: the trigger `type`
plus the metadata fields.  `value` holds the numeric reading of the
percentage field (the validator reads it back with `+v`), the cron fields
are optional strings, `desiredReplicas` a numeric reading; a missing field
is `none`. -/
structure TriggerValue where
  type : String
  value : Option Int
  start : Option String
  end_ : Option String
  desiredReplicas : Option Int
deriving DecidableEq, Repr

/-- The empty object pushed by `field.push(\x7b\x7d)` when a trigger is
added. -/
def emptyTriggerValue : TriggerValue :=
  { type := "", value := none, start := none, end_ := none, desiredReplicas := none }

/-- `onAddRule` (lines 179-184): push an empty trigger and position the
modal at the trailing index `field.value.length - 1`. -/
def onAddRule (v : List TriggerValue) : List TriggerValue × Nat :=
  (v ++ [emptyTriggerValue], (v ++ [emptyTriggerValue]).length - 1)

/-- The modal `onClose` cancel handler (lines 191-199): on an edit, set the
array back to the snapshot taken when the edit opened; on an add, remove
the entry at the modal's index. -/
def cancelModal (isEditingTrigger : Bool) (previousValue : List TriggerValue)
    (currentIndex : Nat) (cur : List TriggerValue) : List TriggerValue :=
  if isEditingTrigger then previousValue else cur.eraseIdx currentIndex

theorem set_append_last (v : List TriggerValue) (e x : TriggerValue) :
    (v ++ [e]).set v.length x = v ++ [x] := by
  induction v with
  | nil => rfl
  | cons hd tl ih => simp [List.set_cons_succ, ih]

theorem eraseIdx_append_last (v : List TriggerValue) (x : TriggerValue) :
    (v ++ [x]).eraseIdx v.length = v := by
  induction v with
  | nil => rfl
  | cons hd tl ih => simp [List.eraseIdx_cons_succ, ih]

/-- C8: cancelling the trigger modal restores the triggers value from
before the interaction: after an add (which appended an empty trigger and
opened the modal at the trailing index) cancel removes that trigger even if
its fields were edited in the modal, and after an edit cancel restores the
snapshot; in both cases the value is the original `v`. -/
theorem modal_cancel_restores (v cur : List TriggerValue) (x : TriggerValue) (i : Nat) :
    cancelModal false v (onAddRule v).2 ((onAddRule v).1.set (onAddRule v).2 x) = v ∧
    cancelModal true v i cur = v := by
  constructor
  · have h2 : (onAddRule v).2 = v.length := by simp [onAddRule]
    have h1 : (onAddRule v).1 = v ++ [emptyTriggerValue] := rfl
    rw [cancelModal, if_neg (by simp), h1, h2, set_append_last, eraseIdx_append_last]
  · rfl

/-! ## Validation and the submit handler -/

/-- The whole form value: the `triggers` array plus the replica bounds
(`none` when the field was never filled). -/
structure FormValues where
  triggers : List TriggerValue
  minReplicaCount : Option Int
  maxReplicaCount : Option Int
deriving DecidableEq, Repr

/-- The `metadata.value` validator (lines 405-408):
`(v) => +v > 0 && +v < 100` over the numeric reading of the stored value. -/
def valueValidator (v : Int) : Bool :=
  decide (0 < v) && decide (v < 100)

def msgAtLeastOneTrigger : String := "At least one trigger"

def msgValueRange : String := "The value must be greater than 0 and less than 100"

def msgMinRequired : String := "The minimum number of service instances is required"

def msgMaxRequired : String := "The maximum number of service instances is required"

/-- Field-level validation of one trigger.  Which metadata fields are
checked follows the display state `typeReactEffect` leaves them in (the
form engine skips fields with `display: none`): `type` is always required;
for `cpu`/`memory` the `value` field is required and must satisfy
`valueValidator`; for `cron` the `start`, `end` and `desiredReplicas`
fields are required. -/
def validateTrigger (t : TriggerValue) : List String :=
  (if t.type = "" then ["type is required"] else []) ++
  (if t.type ≠ "" ∧ t.type ≠ "cron" then
    match t.value with
    | none => ["target value is required"]
    | some v => if valueValidator v then [] else [msgValueRange]
   else []) ++
  (if t.type = "cron" then
    (match t.start with | none => ["start is required"] | some _ => []) ++
    (match t.end_ with | none => ["end is required"] | some _ => []) ++
    (match t.desiredReplicas with | none => ["desiredReplicas is required"] | some _ => [])
   else [])

/-- `form.validate()` over the declared validators (lines 360-487): the
`triggers` array is required non-empty, every trigger is validated, and
both replica bounds are required.  No validator relates the two bounds. -/
def validateForm (f : FormValues) : List String :=
  (if f.triggers.isEmpty then [msgAtLeastOneTrigger] else []) ++
  (f.triggers.map validateTrigger).flatten ++
  (if f.minReplicaCount.isNone then [msgMinRequired] else []) ++
  (if f.maxReplicaCount.isNone then [msgMaxRequired] else [])

/-- A persisted rule as fetched by `getScaledRules`. -/
structure Rule where
  ruleId : String
  isApplied : String
  scaledConfig : FormValues
deriving DecidableEq, Repr

/-- The `getScaledRules` response body. -/
structure ScaledRulesData where
  rules : List Rule
deriving DecidableEq, Repr

/-- `isEditing` (line 284): `!!scaledRules && !!scaledRules.rules.length`.
The fetch result is `none` while no response has arrived. -/
def isEditing (fetched : Option ScaledRulesData) : Bool :=
  match fetched with
  | some d => !d.rules.isEmpty
  | none => false

/-- `scaledRules?.rules[0].ruleId` used by the update branch (line 505). -/
def fetchedRuleId (fetched : Option ScaledRulesData) : Option String :=
  fetched.bind fun d => d.rules.head?.map Rule.ruleId

/-- The `scaledConfig` actually sent upstream (line 499): the form value
with the triggers whose `type` is not truthy filtered out. -/
def submittedConfig (f : FormValues) : FormValues :=
  { f with triggers := f.triggers.filter fun t => !(t.type == "") }

/-- The service call `onSubmit` dispatches: `createScaledRules` with a
`scaledConfig` for the service, or `updateScaledRules` with the fetched
rule's id. -/
inductive SubmitCall where
  | create (scaledConfig : FormValues)
  | update (ruleId : String) (scaledConfig : FormValues)
deriving DecidableEq, Repr

/-- The `scaledConfig` payload carried by either call. -/
def callConfig : SubmitCall → FormValues
  | .create cfg => cfg
  | .update _ cfg => cfg

/-- `onSubmit` (lines 489-524): validate the form; on failure surface the
error messages and make no call; on success filter the untyped triggers
and dispatch an update when `isEditing`, otherwise a create. -/
def onSubmit (fetched : Option ScaledRulesData) (f : FormValues) :
    Except (List String) SubmitCall :=
  if validateForm f = [] then
    if isEditing fetched then
      .ok (.update ((fetchedRuleId fetched).getD "") (submittedConfig f))
    else
      .ok (.create (submittedConfig f))
  else
    .error (validateForm f)

/-- A concrete `cpu` trigger with an in-range value. -/
def cpuTrigger50 : TriggerValue :=
  { type := "cpu", value := some 50, start := none, end_ := none, desiredReplicas := none }

/-- A well-formed sample form used as concrete input. -/
def sampleForm : FormValues :=
  { triggers := [cpuTrigger50], minReplicaCount := some 1, maxReplicaCount := some 2 }

example : validateForm sampleForm = [] := by decide

/-- C6: on submit of a form state that passes validation, the dispatched
call's `scaledConfig` payload contains exactly the triggers of the form
value whose `type` is truthy. -/
theorem submit_filters_untyped_triggers (fetched : Option ScaledRulesData)
    (f : FormValues) (c : SubmitCall) (h : onSubmit fetched f = .ok c) :
    (callConfig c).triggers = f.triggers.filter fun t => !(t.type == "") := by
  rw [onSubmit] at h
  by_cases hv : validateForm f = []
  · rw [if_pos hv] at h
    by_cases he : isEditing fetched = true
    · rw [if_pos he] at h
      cases h
      rfl
    · rw [if_neg he] at h
      cases h
      rfl
  · rw [if_neg hv] at h
    cases h

/-- Closed instance of the C6 theorem on the sample form. -/
theorem submit_filters_untyped_triggers_witness :
    (callConfig (.create (submittedConfig sampleForm))).triggers
      = sampleForm.triggers.filter fun t => !(t.type == "") :=
  submit_filters_untyped_triggers none sampleForm _ rfl

/-- A fetched response holding one rule whose `scaledConfig` has no
triggers. -/
def emptyRuleFetch : Option ScaledRulesData :=
  some ⟨[{ ruleId := "rule-1", isApplied := "N",
           scaledConfig :=
             { triggers := [], minReplicaCount := some 1, maxReplicaCount := some 2 } }]⟩

/-- Restatement of the claim side of C7: some fetched rule has at least one
trigger. -/
def fetchedRuleHasTrigger (fetched : Option ScaledRulesData) : Bool :=
  match fetched with
  | some d => d.rules.any fun r => !r.scaledConfig.triggers.isEmpty
  | none => false

/-- C7 as stated is false: with a fetched response containing one rule that
has zero triggers, the drawer is in editing mode and submits an update,
although no fetched rule has at least one trigger. -/
theorem editing_mode_counterexample :
    isEditing emptyRuleFetch = true ∧
    fetchedRuleHasTrigger emptyRuleFetch = false ∧
    onSubmit emptyRuleFetch sampleForm =
      .ok (.update "rule-1" (submittedConfig sampleForm)) :=
  ⟨rfl, rfl, rfl⟩

/-- C7 amended: the drawer submits in editing mode, calling
`updateScaledRules` with the first fetched rule's `ruleId`, exactly when a
fetched response exists and its `rules` list is non-empty; otherwise it
calls `createScaledRules`. -/
theorem editing_mode_amended (fetched : Option ScaledRulesData) (f : FormValues)
    (h : validateForm f = []) :
    ((∃ d, fetched = some d ∧ d.rules ≠ []) →
      onSubmit fetched f =
        .ok (.update ((fetchedRuleId fetched).getD "") (submittedConfig f))) ∧
    ((∀ d, fetched = some d → d.rules = []) →
      onSubmit fetched f = .ok (.create (submittedConfig f))) := by
  constructor
  · rintro ⟨d, rfl, hd⟩
    have he : isEditing (some d) = true := by
      simp [isEditing, List.isEmpty_iff, hd]
    rw [onSubmit, if_pos h, if_pos he]
  · intro hall
    have he : ¬isEditing fetched = true := by
      cases fetched with
      | none => simp [isEditing]
      | some d => simp [isEditing, List.isEmpty_iff, hall d rfl]
    rw [onSubmit, if_pos h, if_neg he]

/-- Closed instance of the amended C7 theorem in both modes. -/
theorem editing_mode_amended_witness :
    onSubmit emptyRuleFetch sampleForm =
      .ok (.update "rule-1" (submittedConfig sampleForm)) ∧
    onSubmit none sampleForm = .ok (.create (submittedConfig sampleForm)) := by
  constructor
  · exact (editing_mode_amended emptyRuleFetch sampleForm (by decide)).1
      ⟨_, rfl, by decide⟩
  · exact (editing_mode_amended none sampleForm (by decide)).2 fun d hd => by cases hd

/-- C9: the percentage validator accepts a value exactly when its numeric
reading is strictly between 0 and 100, and a `cpu`/`memory` trigger whose
value is out of range makes client-side validation fail: the range message
is among the surfaced messages and `onSubmit` makes no service call. -/
theorem percentage_validation_blocks_submit :
    (∀ v : Int, valueValidator v = true ↔ 0 < v ∧ v < 100) ∧
    (∀ (fetched : Option ScaledRulesData) (f : FormValues) (t : TriggerValue) (v : Int),
      t ∈ f.triggers → (t.type = "cpu" ∨ t.type = "memory") →
      t.value = some v → ¬(0 < v ∧ v < 100) →
      msgValueRange ∈ validateForm f ∧ onSubmit fetched f = .error (validateForm f)) := by
  constructor
  · intro v
    simp [valueValidator]
  · intro fetched f t v ht htype hval hrange
    have htype' : t.type ≠ "" ∧ t.type ≠ "cron" := by
      rcases htype with h | h <;> rw [h] <;> exact ⟨by decide, by decide⟩
    have hvv : ¬valueValidator v = true := by
      simp only [valueValidator, Bool.and_eq_true, decide_eq_true_eq]
      exact hrange
    have hmem : msgValueRange ∈ validateTrigger t := by
      unfold validateTrigger
      rw [hval]
      refine List.mem_append.2 (Or.inl (List.mem_append.2 (Or.inr ?_)))
      rw [if_pos htype']
      simp [hvv]
    have hmemF : msgValueRange ∈ validateForm f := by
      unfold validateForm
      refine List.mem_append.2 (Or.inl (List.mem_append.2 (Or.inl
        (List.mem_append.2 (Or.inr ?_)))))
      exact List.mem_flatten.2 ⟨validateTrigger t, List.mem_map_of_mem _ ht, hmem⟩
    have hne : validateForm f ≠ [] := by
      intro hemp
      rw [hemp] at hmemF
      exact absurd hmemF (List.not_mem_nil _)
    exact ⟨hmemF, by rw [onSubmit, if_neg hne]⟩

/-- A `cpu` trigger whose percentage value 150 is out of range. -/
def cpuTrigger150 : TriggerValue :=
  { type := "cpu", value := some 150, start := none, end_ := none, desiredReplicas := none }

/-- An out-of-range `cpu` trigger value in an otherwise complete form. -/
def badForm : FormValues :=
  { triggers := [cpuTrigger150], minReplicaCount := some 1, maxReplicaCount := some 2 }

/-- Closed instance of the C9 theorem at the value 150. -/
theorem percentage_validation_blocks_submit_witness :
    (valueValidator 50 = true ↔ 0 < (50 : Int) ∧ (50 : Int) < 100) ∧
    (msgValueRange ∈ validateForm badForm ∧
      onSubmit none badForm = .error (validateForm badForm)) := by
  constructor
  · exact percentage_validation_blocks_submit.1 50
  · exact percentage_validation_blocks_submit.2 none badForm cpuTrigger150 150
      (List.mem_singleton.2 rfl) (Or.inl rfl) rfl (by decide)

/-- C10: no validator relates the replica bounds: any form whose triggers
individually validate, with `minReplicaCount = 5` and `maxReplicaCount = 2`,
passes validation and the create/update call is made with those bounds. -/
theorem min_max_not_cross_validated (fetched : Option ScaledRulesData)
    (ts : List TriggerValue) (h1 : ts ≠ [])
    (h2 : (ts.map validateTrigger).flatten = []) :
    ∃ c : SubmitCall,
      onSubmit fetched
          { triggers := ts, minReplicaCount := some 5, maxReplicaCount := some 2 } =
        .ok c ∧
      (callConfig c).minReplicaCount = some 5 ∧
      (callConfig c).maxReplicaCount = some 2 := by
  have hv : validateForm
      { triggers := ts, minReplicaCount := some 5, maxReplicaCount := some 2 } = [] := by
    unfold validateForm
    simp [List.isEmpty_iff, h1, h2]
  rw [onSubmit, if_pos hv]
  by_cases he : isEditing fetched = true
  · rw [if_pos he]
    exact ⟨_, rfl, rfl, rfl⟩
  · rw [if_neg he]
    exact ⟨_, rfl, rfl, rfl⟩

/-- Closed instance of the C10 theorem on a concrete valid trigger list. -/
theorem min_max_not_cross_validated_witness :
    ∃ c : SubmitCall,
      onSubmit none
          { triggers := [cpuTrigger50], minReplicaCount := some 5,
            maxReplicaCount := some 2 } =
        .ok c ∧
      (callConfig c).minReplicaCount = some 5 ∧
      (callConfig c).maxReplicaCount = some 2 :=
  min_max_not_cross_validated none [cpuTrigger50] (by decide) (by decide)

end ElasticScaling
